import Mathlib

/-!
Verification of `create-sample-image.py`: a utility that reads the text file
`sample-advisory-minutes.txt`, renders its lines onto an 800×1200 white canvas
with a hash-derived horizontal jitter, and saves the canvas as a PNG at
`sample-handwritten-advisory-minutes.png`.

The script is embedded shallowly:
* Python strings are Lean `String`s (both are sequences of Unicode code points,
  so `len` agrees with `String.length`).
* `str.split('\n')`, `str.strip()` truthiness, `str.expandtabs()` and
  `textwrap.wrap` (CPython's `TextWrapper` with its default settings:
  `expand_tabs`, `replace_whitespace`, `drop_whitespace`,
  `break_long_words`) are implemented below.  One simplification: the extra
  break opportunities that `break_on_hyphens` introduces inside hyphenated
  words are not modelled; no claim concerns hyphenated words.
* PIL is modelled abstractly: an image records its mode, size, background and
  the ordered list of `draw.text` calls made on it; `img.save(path)` on a
  `.png` path produces a PNG file at that path, overwriting.
* Python's `hash` is a per-run deterministic function `String → ℤ`; it is a
  parameter of the model (CPython salts string hashes per process, so no
  single concrete function is faithful across runs).  Python's `%` on `int`
  with a positive modulus agrees with `Int.emod`.
-/

namespace Vortex

/-- The whitespace characters of CPython's `string.whitespace` /
`textwrap._whitespace` (`' '`, `\t`, `\n`, `\v`, `\f`, `\r`); these are the
characters `str.strip()` removes for the ASCII inputs this tool handles. -/
def isPySpace (c : Char) : Bool :=
  c == ' ' || c == '\t' || c == '\n' || c == '\x0b' || c == '\x0c' || c == '\r'

/-- `str.strip()`: remove leading and trailing whitespace. -/
def pyStrip (s : String) : String :=
  String.mk (((s.toList.dropWhile isPySpace).reverse.dropWhile isPySpace).reverse)

/-- `text.split('\n')` on the character list: split on every newline, keeping
empty pieces; the empty string yields `[[]]`, as in Python. -/
def splitNlAux (cur : List Char) : List Char → List (List Char)
  | [] => [cur.reverse]
  | c :: rest =>
      if c == '\n' then cur.reverse :: splitNlAux [] rest
      else splitNlAux (c :: cur) rest

/-- `text.split('\n')`. -/
def pySplitNl (s : String) : List String :=
  (splitNlAux [] s.toList).map String.mk

/-- `str.expandtabs()` with the default tab size 8, tracking the current
column: a tab becomes `8 - col % 8` spaces; `\n` and `\r` reset the column. -/
def expandTabsAux : Nat → List Char → List Char
  | _, [] => []
  | col, c :: rest =>
      if c == '\t' then
        List.replicate (8 - col % 8) ' ' ++ expandTabsAux (col + (8 - col % 8)) rest
      else if c == '\n' || c == '\r' then
        c :: expandTabsAux 0 rest
      else
        c :: expandTabsAux (col + 1) rest

/-- `TextWrapper._munge_whitespace`: expand tabs, then replace each whitespace
character by a space. -/
def mungeWhitespace (l : List Char) : List Char :=
  (expandTabsAux 0 l).map (fun c => if isPySpace c then ' ' else c)

/-- Split a munged line into maximal chunks of spaces / non-spaces
(`TextWrapper._split` without the hyphen break opportunities). -/
def splitChunksAux (isSp : Bool) (cur : List Char) : List Char → List (List Char)
  | [] => [cur.reverse]
  | c :: rest =>
      if (c == ' ') == isSp then splitChunksAux isSp (c :: cur) rest
      else cur.reverse :: splitChunksAux (c == ' ') [c] rest

/-- Chunk splitting; the empty line yields no chunks. -/
def splitChunks : List Char → List (List Char)
  | [] => []
  | c :: rest => splitChunksAux (c == ' ') [c] rest

/-- Total character count of a chunk list. -/
def totalLen (chunks : List (List Char)) : Nat :=
  (chunks.map List.length).sum

/-- Whether a chunk is whitespace (`chunk.strip() == ''` after munging). -/
def isWsChunk (ch : List Char) : Bool :=
  ch.all (fun c => c == ' ')

/-- The greedy inner loop of `TextWrapper._wrap_chunks`: take chunks while
they fit in the remaining width, returning the taken chunks and the rest. -/
def greedyTake (w : Nat) : Nat → List (List Char) → List (List Char) × List (List Char)
  | _, [] => ([], [])
  | cur, ch :: rest =>
      if cur + ch.length ≤ w then
        let p := greedyTake w (cur + ch.length) rest
        (ch :: p.1, p.2)
      else
        ([], ch :: rest)

/-- `TextWrapper._handle_long_word` (with `break_long_words`, without the
hyphen search): if the next chunk is longer than the full width, move its
first `space_left` characters onto the current line. -/
def handleLongWord (w : Nat) (cur : List (List Char)) :
    List (List Char) → List (List Char) × List (List Char)
  | [] => (cur, [])
  | ch :: rest =>
      if w < ch.length then
        let spaceLeft := if w < 1 then 1 else w - totalLen cur
        (cur ++ [ch.take spaceLeft], ch.drop spaceLeft :: rest)
      else
        (cur, ch :: rest)

/-- Drop the final chunk of the current line when it is whitespace
(the `drop_whitespace` trailing deletion). -/
def dropTrailingWs : List (List Char) → List (List Char)
  | [] => []
  | [ch] => if isWsChunk ch then [] else [ch]
  | ch :: rest => ch :: dropTrailingWs rest

/-- Drop one leading whitespace chunk, but — as in `_wrap_chunks` — only once
some output line already exists (`firstLine = false`). -/
def dropLeadingWs (firstLine : Bool) : List (List Char) → List (List Char)
  | [] => []
  | ch :: rest => if !firstLine && isWsChunk ch then rest else ch :: rest

/-- One iteration of the outer `while chunks` loop of
`TextWrapper._wrap_chunks`: drop a leading whitespace chunk (only once some
line exists), greedily fill the line, handle an over-width chunk, drop
trailing whitespace, and emit the line if nonempty. -/
def wrapIter (w : Nat) (firstLine : Bool) (chunks : List (List Char)) :
    Option (List Char) × List (List Char) :=
  let chunks1 := dropLeadingWs firstLine chunks
  let g := greedyTake w 0 chunks1
  let hl := handleLongWord w g.1 g.2
  let curLine := dropTrailingWs hl.1
  (if curLine.isEmpty then none else some curLine.flatten, hl.2)

/-- The outer `while chunks:` loop of `_wrap_chunks`, with fuel (each
iteration removes at least one character from the chunk list, so
`totalLen chunks + 1` fuel always reaches the empty chunk list). -/
def wrapChunksAux (w : Nat) : Nat → Bool → List (List Char) → List (List Char)
  | 0, _, _ => []
  | fuel + 1, firstLine, chunks =>
      if chunks.isEmpty then []
      else
        match wrapIter w firstLine chunks with
        | (some l, rest) => l :: wrapChunksAux w fuel false rest
        | (none, rest) => wrapChunksAux w fuel firstLine rest

/-- `textwrap.wrap(s, width=w)` with the default wrapper settings. -/
def textwrapWrap (w : Nat) (s : String) : List String :=
  let chunks := splitChunks (mungeWhitespace s.toList)
  (wrapChunksAux w (totalLen chunks + 1) true chunks).map String.mk

/-! ## Image settings (lines 21–23 of the script) -/

/-- Canvas width (`width, height = 800, 1200`). -/
def width : Nat := 800

/-- Canvas height. -/
def height : Nat := 1200

/-- `background_color = (255, 255, 255)`. -/
def background_color : Nat × Nat × Nat := (255, 255, 255)

/-- `text_color = (0, 0, 139)`. -/
def text_color : Nat × Nat × Nat := (0, 0, 139)

/-- `line_height = 20`. -/
def line_height : Nat := 20

/-- The font handle: `ImageFont.truetype("Arial.ttf", 14)` when the font file
is available, else `ImageFont.load_default()`. -/
inductive Font where
  | truetype (name : String) (size : Nat)
  | load_default
deriving Repr, DecidableEq

/-- The try/except font acquisition (lines 30–34): best effort, never fails. -/
def load_font (arialAvailable : Bool) : Font :=
  if arialAvailable then Font.truetype "Arial.ttf" 14 else Font.load_default

/-- One `draw.text((x_offset, y_position), wrapped_line, fill=.., font=..)`
call, recorded abstractly. `x` is an `Int` because Python's `hash` is a signed
integer (`30 + hash(w) % 5` is still nonnegative since Python's `%` with a
positive modulus is nonnegative, as is `Int.emod`). -/
structure DrawCall where
  x : Int
  y : Nat
  text : String
  fill : Nat × Nat × Nat
  font : Font
deriving Repr, DecidableEq

/-- The body of the inner `for wrapped_line in wrapped_lines:` loop
(lines 45–50): state is `(y_position, draw calls so far)`. -/
def stepSub (hash : String → Int) (font : Font) (st : Nat × List DrawCall)
    (wrapped_line : String) : Nat × List DrawCall :=
  if st.1 < height - 30 then
    let x_offset : Int := 30 + hash wrapped_line % 5
    (st.1 + line_height, st.2 ++ [⟨x_offset, st.1, wrapped_line, text_color, font⟩])
  else
    st

/-- The body of the outer `for line in lines:` loop (lines 41–52):
a non-blank line is wrapped at width 70 and each sub-line drawn via `stepSub`;
a blank line advances the cursor by `line_height // 2`. -/
def stepLine (hash : String → Int) (font : Font) (st : Nat × List DrawCall)
    (line : String) : Nat × List DrawCall :=
  if pyStrip line ≠ "" then
    (textwrapWrap 70 line).foldl (stepSub hash font) st
  else
    (st.1 + line_height / 2, st.2)

/-- The whole rendering pass (lines 37–52): split the text on newlines and
fold the per-line step starting from `y_position = 30` and no draw calls. -/
def render (hash : String → Int) (font : Font) (text : String) : Nat × List DrawCall :=
  (pySplitNl text).foldl (stepLine hash font) (30, [])

/-- The in-memory canvas: `Image.new('RGB', (width, height), background_color)`
plus the draw calls performed on it. -/
structure PILImage where
  mode : String
  size : Nat × Nat
  background : Nat × Nat × Nat
  draws : List DrawCall
deriving Repr, DecidableEq

/-- A file produced by `img.save(path)`; the format is inferred by PIL from
the path's extension (`.png` ⇒ PNG). -/
structure SavedFile where
  path : String
  format : String
  image : PILImage
deriving Repr, DecidableEq

/-- The observable outcome of one call of `create_handwritten_style_image`:
the lines printed, the state of the output path afterwards, and the returned
value (`none` models Python's bare `return` / `None`). -/
structure SynthResult where
  printed : List String
  savedOutput : Option SavedFile
  ret : Option String
deriving Repr, DecidableEq

/-- `'sample-advisory-minutes.txt'`. -/
def input_path : String := "sample-advisory-minutes.txt"

/-- `output_path = 'sample-handwritten-advisory-minutes.png'`. -/
def output_path : String := "sample-handwritten-advisory-minutes.png"

/-- `create_handwritten_style_image()`.  `inputFile` is the content of
`sample-advisory-minutes.txt` (`none` when the file is absent, in which case
`open` raises `FileNotFoundError`, caught at lines 16–18); `prevOutput` is
whatever file currently sits at the output path; `hash` is the process's
string hash; `arialAvailable` tells whether `Arial.ttf` loads. -/
def create_handwritten_style_image (hash : String → Int) (arialAvailable : Bool)
    (inputFile : Option String) (prevOutput : Option SavedFile) : SynthResult :=
  match inputFile with
  | none =>
      { printed := ["Error: sample-advisory-minutes.txt not found"]
        savedOutput := prevOutput
        ret := none }
  | some text =>
      let font := load_font arialAvailable
      let draws := (render hash font text).2
      let img : PILImage :=
        { mode := "RGB", size := (width, height)
          background := background_color, draws := draws }
      { printed := ["✅ Sample handwritten-style image created: " ++ output_path,
                    "📁 You can now upload this image to test the OCR and AI analysis"]
        savedOutput := some { path := output_path, format := "PNG", image := img }
        ret := some output_path }

/-! ## Sanity checks on concrete inputs -/

example : textwrapWrap 70 "A" = ["A"] := by rfl

example : textwrapWrap 70 "hello world" = ["hello world"] := by rfl

example : pySplitNl "A\n\nB" = ["A", "", "B"] := by rfl

example : pySplitNl "" = [""] := by rfl

example :
    (render (fun _ => 0) Font.load_default "A\n\nB").2.map (fun d => (d.y, d.text)) =
      [(30, "A"), (60, "B")] := by rfl

example : render (fun _ => 0) Font.load_default "" = (40, []) := by rfl

/-! ## C1, C2, C9: whole-call behaviour -/

/-- C1: with the input file present and non-empty, the call saves an 800×1200
RGB PNG at the fixed output path — regardless of what (if anything) was
previously stored at that path, i.e. overwriting it — and returns that path. -/
theorem present_nonempty_creates_png (hash : String → Int) (arialAvailable : Bool)
    (text : String) (prevOutput : Option SavedFile) (hne : text ≠ "") :
    ∃ img : PILImage,
      (create_handwritten_style_image hash arialAvailable (some text) prevOutput).savedOutput =
          some { path := output_path, format := "PNG", image := img } ∧
        img.mode = "RGB" ∧ img.size = (800, 1200) ∧
        (create_handwritten_style_image hash arialAvailable (some text) prevOutput).ret =
          some output_path :=
  ⟨_, rfl, rfl, rfl, rfl⟩

/-- Witness for C1 at the concrete input "Hello world". -/
theorem present_nonempty_creates_png_witness :
    ("Hello world" ≠ "") ∧
      ∃ img : PILImage,
        (create_handwritten_style_image (fun _ => 0) false (some "Hello world") none).savedOutput =
            some { path := output_path, format := "PNG", image := img } ∧
          img.mode = "RGB" ∧ img.size = (800, 1200) ∧
          (create_handwritten_style_image (fun _ => 0) false (some "Hello world") none).ret =
            some output_path :=
  ⟨by decide,
   present_nonempty_creates_png (fun _ => 0) false "Hello world" none (by decide)⟩

/-- C2: with the input file absent, the call prints exactly the one error
line, leaves the output path untouched (creates no file), and returns `none`;
`create_handwritten_style_image` is a total function, so no exception
propagates. -/
theorem missing_input_prints_error_and_returns_none (hash : String → Int)
    (arialAvailable : Bool) (prevOutput : Option SavedFile) :
    (create_handwritten_style_image hash arialAvailable none prevOutput).printed =
        ["Error: sample-advisory-minutes.txt not found"] ∧
      (create_handwritten_style_image hash arialAvailable none prevOutput).printed.length = 1 ∧
      (create_handwritten_style_image hash arialAvailable none prevOutput).savedOutput =
        prevOutput ∧
      (create_handwritten_style_image hash arialAvailable none prevOutput).ret = none :=
  ⟨rfl, rfl, rfl, rfl⟩

/-- C9: with the input file present but empty, the call still saves the
800×1200 PNG (with zero draw calls; the single empty line advances the cursor
once by half a line height, to 30 + 10 = 40) and returns the output path. -/
theorem empty_input_still_saves_png (hash : String → Int) (arialAvailable : Bool)
    (prevOutput : Option SavedFile) :
    render hash (load_font arialAvailable) "" = (30 + line_height / 2, []) ∧
      (create_handwritten_style_image hash arialAvailable (some "") prevOutput).savedOutput =
        some { path := output_path, format := "PNG",
               image := { mode := "RGB", size := (width, height),
                          background := background_color, draws := [] } } ∧
      (create_handwritten_style_image hash arialAvailable (some "") prevOutput).ret =
        some output_path :=
  ⟨rfl, rfl, rfl⟩

/-! ## C5: the "A\n\nB" scenario -/

/-- C5 counterexample: on input `"A\n\nB"` the code draws "A" at y = 30 and
"B" at y = 60 — not at y = 50 as the claim states (the cursor is at 50 after
drawing "A", and the blank line pushes it to 60 before "B" is drawn). -/
theorem scenario_A_blank_B_counterexample :
    (render (fun _ => 0) Font.load_default "A\n\nB").2.map (fun d => (d.y, d.text)) =
        [(30, "A"), (60, "B")] ∧
      ¬ ∃ d ∈ (render (fun _ => 0) Font.load_default "A\n\nB").2,
          d.text = "B" ∧ d.y = 50 := by
  exact ⟨rfl, by decide⟩

/-- C5 amended: on input `"A\n\nB"`, "A" is drawn at y = 30, after which the
cursor is 50; the blank line advances it by 10 to 60; and "B" is drawn at
y = 60 — for every hash function and font. -/
theorem scenario_A_blank_B_amended (hash : String → Int) (font : Font) :
    (stepLine hash font (30, []) "A").1 = 50 ∧
      (stepLine hash font (stepLine hash font (30, []) "A") "").1 =
        (stepLine hash font (30, []) "A").1 + 10 ∧
      (render hash font "A\n\nB").2.map (fun d => (d.y, d.text)) =
        [(30, "A"), (60, "B")] :=
  ⟨rfl, rfl, rfl⟩

/-! ## C6: blank lines -/

/-- C6: a line that is blank (empty after stripping) advances the cursor by
exactly `line_height // 2 = 10` and draws nothing, whatever the current
state. -/
theorem blank_line_advances_half_line_height (hash : String → Int) (font : Font)
    (st : Nat × List DrawCall) (line : String) (h : pyStrip line = "") :
    stepLine hash font st line = (st.1 + line_height / 2, st.2) ∧
      line_height / 2 = 10 := by
  refine ⟨?_, rfl⟩
  simp [stepLine, h]

/-- Witness for C6: a one-space line, at a cursor already past the drawable
region (y = 2000), still advances by exactly 10 and draws nothing. -/
theorem blank_line_advances_half_line_height_witness :
    pyStrip " " = "" ∧
      (stepLine (fun _ => 0) Font.load_default (2000, []) " " =
          (2000 + line_height / 2, []) ∧ line_height / 2 = 10) :=
  ⟨by decide,
   blank_line_advances_half_line_height (fun _ => 0) Font.load_default (2000, []) " "
     (by decide)⟩

/-! ## C8: the cursor never decreases -/

/-- One wrapped-sub-line step never decreases the cursor. -/
theorem stepSub_y_mono (hash : String → Int) (font : Font)
    (st : Nat × List DrawCall) (w : String) : st.1 ≤ (stepSub hash font st w).1 := by
  unfold stepSub
  split
  · exact Nat.le_add_right _ _
  · exact le_refl _

/-- Folding `stepSub` over any sub-line list never decreases the cursor. -/
theorem foldl_stepSub_y_mono (hash : String → Int) (font : Font) :
    ∀ (ws : List String) (st : Nat × List DrawCall),
      st.1 ≤ (ws.foldl (stepSub hash font) st).1 := by
  intro ws
  induction ws with
  | nil => intro st; exact le_refl _
  | cons w ws ih =>
      intro st
      exact le_trans (stepSub_y_mono hash font st w) (ih _)

/-- One per-line step never decreases the cursor. -/
theorem stepLine_y_mono (hash : String → Int) (font : Font)
    (st : Nat × List DrawCall) (line : String) : st.1 ≤ (stepLine hash font st line).1 := by
  unfold stepLine
  split
  · exact foldl_stepSub_y_mono hash font _ st
  · exact Nat.le_add_right _ _

/-- Folding `stepLine` over any line list never decreases the cursor. -/
theorem foldl_stepLine_y_mono (hash : String → Int) (font : Font) :
    ∀ (lines : List String) (st : Nat × List DrawCall),
      st.1 ≤ (lines.foldl (stepLine hash font) st).1 := by
  intro lines
  induction lines with
  | nil => intro st; exact le_refl _
  | cons line lines ih =>
      intro st
      exact le_trans (stepLine_y_mono hash font st line) (ih _)

/-- C8: `y_position` is monotonically non-decreasing — no per-line step, and
no run of the loop from any intermediate state, ever decreases it. -/
theorem y_position_monotone (hash : String → Int) (font : Font)
    (st : Nat × List DrawCall) (line : String) (lines : List String) :
    st.1 ≤ (stepLine hash font st line).1 ∧
      st.1 ≤ (lines.foldl (stepLine hash font) st).1 :=
  ⟨stepLine_y_mono hash font st line, foldl_stepLine_y_mono hash font lines st⟩

/-! ## C3: once the drawable region is exhausted, nothing more is drawn -/

/-- When the cursor has reached `height - 30`, a sub-line step is the
identity. -/
theorem stepSub_saturated (hash : String → Int) (font : Font)
    (st : Nat × List DrawCall) (w : String) (h : height - 30 ≤ st.1) :
    stepSub hash font st w = st := by
  unfold stepSub
  rw [if_neg (Nat.not_lt.mpr h)]

/-- Folding `stepSub` from a saturated cursor changes nothing. -/
theorem foldl_stepSub_saturated (hash : String → Int) (font : Font) :
    ∀ (ws : List String) (st : Nat × List DrawCall), height - 30 ≤ st.1 →
      ws.foldl (stepSub hash font) st = st := by
  intro ws
  induction ws with
  | nil => intro st _; rfl
  | cons w ws ih =>
      intro st h
      rw [List.foldl_cons, stepSub_saturated hash font st w h, ih st h]

/-- From a saturated cursor, a per-line step draws nothing and keeps the
cursor saturated (blank lines may still advance it). -/
theorem stepLine_saturated (hash : String → Int) (font : Font)
    (st : Nat × List DrawCall) (line : String) (h : height - 30 ≤ st.1) :
    (stepLine hash font st line).2 = st.2 ∧
      height - 30 ≤ (stepLine hash font st line).1 := by
  unfold stepLine
  split
  · rw [foldl_stepSub_saturated hash font _ st h]
    exact ⟨rfl, h⟩
  · exact ⟨rfl, le_trans h (Nat.le_add_right _ _)⟩

/-- C3: once `y_position` reaches or exceeds `height - 30`, no further
sub-line is drawn for the remainder of the run — neither by the remaining
sub-lines of the current line nor by any later line, blank or short. -/
theorem exhausted_region_draws_nothing_more (hash : String → Int) (font : Font)
    (st : Nat × List DrawCall) (ws : List String) (lines : List String)
    (h : height - 30 ≤ st.1) :
    (ws.foldl (stepSub hash font) st).2 = st.2 ∧
      (lines.foldl (stepLine hash font) st).2 = st.2 := by
  constructor
  · rw [foldl_stepSub_saturated hash font ws st h]
  · induction lines generalizing st with
    | nil => rfl
    | cons line lines ih =>
        rw [List.foldl_cons]
        have h1 := stepLine_saturated hash font st line h
        rw [ih _ h1.2, h1.1]

/-- Witness for C3: from y = 1170 = `height - 30`, a short line, a blank line
and another short line draw nothing. -/
theorem exhausted_region_draws_nothing_more_witness :
    height - 30 ≤ 1170 ∧
      ((["x"].foldl (stepSub (fun _ => 0) Font.load_default) (1170, [])).2 = [] ∧
        (["x", "", "hello world"].foldl (stepLine (fun _ => 0) Font.load_default)
            (1170, [])).2 = []) :=
  ⟨by decide,
   exhausted_region_draws_nothing_more (fun _ => 0) Font.load_default (1170, [])
     ["x"] ["x", "", "hello world"] (by decide)⟩

/-! ## C10: at most 57 draw calls -/

/-- Invariant for the draw-count bound: at most 57 draws so far, and while
the cursor is still in the drawable region it dominates `20·draws + 30`. -/
def drawCountInv (st : Nat × List DrawCall) : Prop :=
  st.2.length ≤ 57 ∧ (st.1 < height - 30 → 20 * st.2.length + 30 ≤ st.1)

/-- A sub-line step preserves the draw-count invariant. -/
theorem stepSub_drawCountInv (hash : String → Int) (font : Font)
    (st : Nat × List DrawCall) (w : String) (h : drawCountInv st) :
    drawCountInv (stepSub hash font st w) := by
  obtain ⟨h1, h2⟩ := h
  unfold stepSub
  split
  case isTrue hy =>
      have h3 := h2 hy
      simp only [height] at hy h3
      constructor
      · simp only [List.length_append, List.length_cons, List.length_nil]
        omega
      · intro hy2
        simp only [height, line_height] at hy2 ⊢
        simp only [List.length_append, List.length_cons, List.length_nil]
        omega
  case isFalse hy => exact ⟨h1, h2⟩

/-- Folding `stepSub` preserves the draw-count invariant. -/
theorem foldl_stepSub_drawCountInv (hash : String → Int) (font : Font) :
    ∀ (ws : List String) (st : Nat × List DrawCall), drawCountInv st →
      drawCountInv (ws.foldl (stepSub hash font) st) := by
  intro ws
  induction ws with
  | nil => intro st h; exact h
  | cons w ws ih =>
      intro st h
      exact ih _ (stepSub_drawCountInv hash font st w h)

/-- A per-line step preserves the draw-count invariant. -/
theorem stepLine_drawCountInv (hash : String → Int) (font : Font)
    (st : Nat × List DrawCall) (line : String) (h : drawCountInv st) :
    drawCountInv (stepLine hash font st line) := by
  unfold stepLine
  split
  · exact foldl_stepSub_drawCountInv hash font _ st h
  · obtain ⟨h1, h2⟩ := h
    refine ⟨h1, fun hy => ?_⟩
    simp only [height, line_height] at hy h2 ⊢
    omega

/-- C10: a single run performs at most 57 text-draw calls. -/
theorem at_most_57_draw_calls (hash : String → Int) (font : Font) (text : String) :
    (render hash font text).2.length ≤ 57 := by
  have h0 : drawCountInv (30, ([] : List DrawCall)) := by
    constructor
    · simp
    · intro _; simp
  have : ∀ (lines : List String) (st : Nat × List DrawCall), drawCountInv st →
      drawCountInv (lines.foldl (stepLine hash font) st) := by
    intro lines
    induction lines with
    | nil => intro st h; exact h
    | cons line lines ih =>
        intro st h
        exact ih _ (stepLine_drawCountInv hash font st line h)
  exact (this (pySplitNl text) (30, []) h0).1

/-! ## C4: offsets are in [30, 34] and determined by the sub-line's text -/

/-- Every recorded draw call carries `x = 30 + hash(text) % 5`. -/
def drawsHashOffsets (hash : String → Int) (l : List DrawCall) : Prop :=
  ∀ d ∈ l, d.x = 30 + hash d.text % 5

/-- A sub-line step preserves the offset shape of the draw list. -/
theorem stepSub_drawsHashOffsets (hash : String → Int) (font : Font)
    (st : Nat × List DrawCall) (w : String) (h : drawsHashOffsets hash st.2) :
    drawsHashOffsets hash (stepSub hash font st w).2 := by
  unfold stepSub
  split
  · intro d hd
    rcases List.mem_append.mp hd with h1 | h2
    · exact h d h1
    · rcases List.mem_singleton.mp h2 with rfl
      rfl
  · exact h

/-- Folding `stepSub` preserves the offset shape. -/
theorem foldl_stepSub_drawsHashOffsets (hash : String → Int) (font : Font) :
    ∀ (ws : List String) (st : Nat × List DrawCall), drawsHashOffsets hash st.2 →
      drawsHashOffsets hash (ws.foldl (stepSub hash font) st).2 := by
  intro ws
  induction ws with
  | nil => intro st h; exact h
  | cons w ws ih =>
      intro st h
      exact ih _ (stepSub_drawsHashOffsets hash font st w h)

/-- A per-line step preserves the offset shape. -/
theorem stepLine_drawsHashOffsets (hash : String → Int) (font : Font)
    (st : Nat × List DrawCall) (line : String) (h : drawsHashOffsets hash st.2) :
    drawsHashOffsets hash (stepLine hash font st line).2 := by
  unfold stepLine
  split
  · exact foldl_stepSub_drawsHashOffsets hash font _ st h
  · exact h

/-- Every draw call of a run carries `x = 30 + hash(text) % 5`. -/
theorem render_drawsHashOffsets (hash : String → Int) (font : Font) (text : String) :
    drawsHashOffsets hash (render hash font text).2 := by
  have : ∀ (lines : List String) (st : Nat × List DrawCall), drawsHashOffsets hash st.2 →
      drawsHashOffsets hash (lines.foldl (stepLine hash font) st).2 := by
    intro lines
    induction lines with
    | nil => intro st h; exact h
    | cons line lines ih =>
        intro st h
        exact ih _ (stepLine_drawsHashOffsets hash font st line h)
  exact this (pySplitNl text) (30, []) (by intro d hd; cases hd)

/-- C4: every drawn sub-line's horizontal offset lies in [30, 34], and within
a run two draws with the same text get the same offset. -/
theorem draw_offset_in_range_and_deterministic (hash : String → Int) (font : Font)
    (text : String) (d : DrawCall) (hd : d ∈ (render hash font text).2) :
    30 ≤ d.x ∧ d.x ≤ 34 ∧
      ∀ d2 ∈ (render hash font text).2, d2.text = d.text → d2.x = d.x := by
  have hx := render_drawsHashOffsets hash font text d hd
  have hnn : 0 ≤ hash d.text % 5 := Int.emod_nonneg _ (by norm_num)
  have hlt : hash d.text % 5 < 5 := Int.emod_lt_of_pos _ (by norm_num)
  refine ⟨by omega, by omega, fun d2 hd2 ht => ?_⟩
  have hx2 := render_drawsHashOffsets hash font text d2 hd2
  rw [hx2, hx, ht]

/-- Witness for C4 at input "Hi" with hash = string length: the one draw call
is `⟨32, 30, "Hi", …⟩` and its offset satisfies the bounds. -/
theorem draw_offset_in_range_and_deterministic_witness :
    (⟨32, 30, "Hi", text_color, Font.load_default⟩ : DrawCall) ∈
        (render (fun s => (s.length : Int)) Font.load_default "Hi").2 ∧
      30 ≤ (32 : Int) ∧ (32 : Int) ≤ 34 :=
  ⟨by decide,
   (draw_offset_in_range_and_deterministic (fun s => (s.length : Int))
       Font.load_default "Hi" ⟨32, 30, "Hi", text_color, Font.load_default⟩
       (by decide)).1,
   (draw_offset_in_range_and_deterministic (fun s => (s.length : Int))
       Font.load_default "Hi" ⟨32, 30, "Hi", text_color, Font.load_default⟩
       (by decide)).2.1⟩

/-! ## C7: short lines and wrapping -/

/-- A 22-character line: `'a'`, twenty tab characters, `'b'`. -/
def tabLine : String := "a\t\t\t\t\t\t\t\t\t\t\t\t\t\t\t\t\t\t\t\tb"

set_option maxRecDepth 8192 in
/-- C7 counterexample: `tabLine` is non-blank and only 22 characters long,
yet `textwrap.wrap(tabLine, 70)` returns two sub-lines (`expandtabs` inflates
the twenty tabs to 159 spaces, which no longer fit on one 70-column line). -/
theorem short_line_with_tabs_two_sublines :
    tabLine.length = 22 ∧ pyStrip tabLine ≠ "" ∧
      textwrapWrap 70 tabLine = ["a", "b"] ∧ (textwrapWrap 70 tabLine).length ≠ 1 := by
  refine ⟨rfl, by decide, rfl, by decide⟩

/-- A tab-free character list passes through `expandtabs` unchanged. -/
theorem expandTabsAux_no_tab : ∀ (l : List Char), '\t' ∉ l → ∀ (col : Nat),
    expandTabsAux col l = l := by
  intro l
  induction l with
  | nil => intro _ _; rfl
  | cons c rest ih =>
      intro hl col
      have hrest : '\t' ∉ rest := fun e => hl (List.mem_cons_of_mem c e)
      have hc : ¬ ((c == '\t') = true) := by
        simp only [beq_iff_eq]
        intro e
        exact hl (e ▸ List.mem_cons_self c rest)
      unfold expandTabsAux
      rw [if_neg hc]
      split
      · rw [ih hrest 0]
      · rw [ih hrest (col + 1)]

/-- The munge of a tab-free line just replaces each whitespace character with
a space (in particular it keeps the length). -/
theorem mungeWhitespace_no_tab (l : List Char) (h : '\t' ∉ l) :
    mungeWhitespace l = l.map (fun c => if isPySpace c then ' ' else c) := by
  unfold mungeWhitespace
  rw [expandTabsAux_no_tab l h 0]

/-- Chunk splitting partitions the line: the chunks concatenate back to it. -/
theorem splitChunksAux_flatten : ∀ (l : List Char) (isSp : Bool) (cur : List Char),
    (splitChunksAux isSp cur l).flatten = cur.reverse ++ l := by
  intro l
  induction l with
  | nil => intro isSp cur; simp [splitChunksAux]
  | cons c rest ih =>
      intro isSp cur
      unfold splitChunksAux
      split
      · rw [ih]
        simp
      · simp only [List.flatten_cons, ih]
        simp

/-- The chunks of a line concatenate back to the line. -/
theorem splitChunks_flatten (l : List Char) : (splitChunks l).flatten = l := by
  cases l with
  | nil => rfl
  | cons c rest =>
      unfold splitChunks
      rw [splitChunksAux_flatten]
      rfl

/-- `totalLen` is the length of the concatenation. -/
theorem totalLen_eq_flatten_length : ∀ (chunks : List (List Char)),
    totalLen chunks = chunks.flatten.length := by
  intro chunks
  induction chunks with
  | nil => rfl
  | cons ch rest ih =>
      unfold totalLen at ih ⊢
      simp only [List.map_cons, List.sum_cons, List.flatten_cons, List.length_append, ih]

/-- When all chunks fit within the width, the greedy loop takes them all. -/
theorem greedyTake_all : ∀ (chunks : List (List Char)) (w cur : Nat),
    cur + totalLen chunks ≤ w → greedyTake w cur chunks = (chunks, []) := by
  intro chunks
  induction chunks with
  | nil => intro w cur _; rfl
  | cons ch rest ih =>
      intro w cur h
      have hlen : totalLen (ch :: rest) = ch.length + totalLen rest := by
        unfold totalLen
        simp only [List.map_cons, List.sum_cons]
      rw [hlen] at h
      have h1 : cur + ch.length ≤ w := by omega
      unfold greedyTake
      rw [if_pos h1]
      simp [ih w (cur + ch.length) (by omega)]

/-- On the first line no leading whitespace chunk is dropped. -/
theorem dropLeadingWs_true (chunks : List (List Char)) :
    dropLeadingWs true chunks = chunks := by
  cases chunks with
  | nil => rfl
  | cons ch rest => simp [dropLeadingWs]

/-- If the chunks contain a non-space character, dropping the trailing
whitespace chunk cannot empty them. -/
theorem dropTrailingWs_ne_nil (chunks : List (List Char)) (c : Char)
    (hc : c ∈ chunks.flatten) (hcs : (c == ' ') = false) :
    dropTrailingWs chunks ≠ [] := by
  cases chunks with
  | nil => simp at hc
  | cons ch rest =>
      cases rest with
      | nil =>
          have hcch : c ∈ ch := by simpa using hc
          have hws : ¬ (isWsChunk ch = true) := by
            intro hall
            have h2 := List.all_eq_true.mp hall c hcch
            rw [hcs] at h2
            exact absurd h2 (by simp)
          unfold dropTrailingWs
          rw [if_neg hws]
          simp
      | cons ch2 rest2 =>
          unfold dropTrailingWs
          simp

/-- Dropping a satisfied-everywhere predicate empties the list. -/
theorem dropWhile_all_pySpace : ∀ (l : List Char), (∀ c ∈ l, isPySpace c = true) →
    l.dropWhile isPySpace = [] := by
  intro l
  induction l with
  | nil => intro _; rfl
  | cons c rest ih =>
      intro h
      rw [List.dropWhile_cons, if_pos (h c (List.mem_cons_self c rest))]
      exact ih (fun x hx => h x (List.mem_cons_of_mem c hx))

/-- A string all of whose characters are whitespace strips to the empty
string. -/
theorem pyStrip_eq_empty_of_all (s : String) (h : ∀ c ∈ s.toList, isPySpace c = true) :
    pyStrip s = "" := by
  unfold pyStrip
  rw [dropWhile_all_pySpace s.toList h]
  rfl

/-- A first-line wrap iteration over chunks that all fit: take everything,
drop a trailing whitespace chunk, emit the line (when nonempty); no chunks
remain. -/
theorem wrapIter_first_fits (chunks : List (List Char)) (h : totalLen chunks ≤ 70) :
    wrapIter 70 true chunks =
      (if (dropTrailingWs chunks).isEmpty then none
       else some (dropTrailingWs chunks).flatten, []) := by
  simp only [wrapIter, dropLeadingWs_true, greedyTake_all chunks 70 0 (by omega)]
  rfl

/-- The wrap loop on no chunks yields no lines, whatever the fuel. -/
theorem wrapChunksAux_nil (w : Nat) : ∀ (fuel : Nat) (firstLine : Bool),
    wrapChunksAux w fuel firstLine [] = [] := by
  intro fuel firstLine
  cases fuel <;> rfl

/-- `textwrap.wrap` at width 70 of a tab-free, non-blank line shorter than 70
characters is exactly one sub-line. -/
theorem textwrapWrap_short_tabfree (line : String) (htab : '\t' ∉ line.toList)
    (hnb : pyStrip line ≠ "") (hlen : line.length < 70) :
    ∃ w, textwrapWrap 70 line = [w] := by
  have hmap : mungeWhitespace line.toList =
      line.toList.map (fun c => if isPySpace c then ' ' else c) :=
    mungeWhitespace_no_tab line.toList htab
  have hflat : (splitChunks (mungeWhitespace line.toList)).flatten =
      mungeWhitespace line.toList := splitChunks_flatten _
  have htot : totalLen (splitChunks (mungeWhitespace line.toList)) ≤ 70 := by
    rw [totalLen_eq_flatten_length, hflat, hmap, List.length_map]
    have : line.toList.length = line.length := rfl
    omega
  -- the line has a character that is not whitespace
  have hex : ∃ c ∈ line.toList, isPySpace c = false := by
    by_contra hall
    push_neg at hall
    refine hnb (pyStrip_eq_empty_of_all line fun c hc => ?_)
    have := hall c hc
    cases he : isPySpace c with
    | false => exact absurd he this
    | true => rfl
  obtain ⟨c, hc, hcs⟩ := hex
  -- that character survives munging and is not a space
  have hcm : c ∈ mungeWhitespace line.toList := by
    rw [hmap]
    refine List.mem_map.mpr ⟨c, hc, ?_⟩
    simp [hcs]
  have hcsp : (c == ' ') = false := by
    simp only [beq_eq_false_iff_ne]
    intro e
    rw [e] at hcs
    exact absurd hcs (by simp [isPySpace])
  have hne : dropTrailingWs (splitChunks (mungeWhitespace line.toList)) ≠ [] :=
    dropTrailingWs_ne_nil _ c (by rw [hflat]; exact hcm) hcsp
  have hie : (dropTrailingWs (splitChunks (mungeWhitespace line.toList))).isEmpty = false := by
    cases hdt : dropTrailingWs (splitChunks (mungeWhitespace line.toList)) with
    | nil => exact absurd hdt hne
    | cons a b => rfl
  have hchne : (splitChunks (mungeWhitespace line.toList)).isEmpty = false := by
    cases hsc : splitChunks (mungeWhitespace line.toList) with
    | nil =>
        have hm0 : mungeWhitespace line.toList = [] := by
          rw [← hflat, hsc]
          rfl
        rw [hm0] at hcm
        exact absurd hcm (List.not_mem_nil c)
    | cons a b => rfl
  have hiter : wrapIter 70 true (splitChunks (mungeWhitespace line.toList)) =
      (some (dropTrailingWs (splitChunks (mungeWhitespace line.toList))).flatten, []) := by
    rw [wrapIter_first_fits _ htot, hie]
    simp
  refine ⟨String.mk (dropTrailingWs (splitChunks (mungeWhitespace line.toList))).flatten, ?_⟩
  unfold textwrapWrap
  simp only [wrapChunksAux, hchne, Bool.false_eq_true, if_false, hiter]
  rw [wrapChunksAux_nil]
  rfl

/-- C7 amended: for a non-blank input line shorter than 70 characters that
contains no tab character, the wrap step produces exactly one sub-line, and —
when the cursor is still below `height - 30` — that sub-line is drawn and the
cursor advances by exactly `line_height = 20`. -/
theorem short_tabfree_line_single_subline (hash : String → Int) (font : Font)
    (line : String) (st : Nat × List DrawCall)
    (htab : '\t' ∉ line.toList) (hnb : pyStrip line ≠ "") (hlen : line.length < 70)
    (hy : st.1 < height - 30) :
    ∃ w, textwrapWrap 70 line = [w] ∧
      stepLine hash font st line =
        (st.1 + line_height,
         st.2 ++ [⟨30 + hash w % 5, st.1, w, text_color, font⟩]) := by
  obtain ⟨w, hw⟩ := textwrapWrap_short_tabfree line htab hnb hlen
  refine ⟨w, hw, ?_⟩
  unfold stepLine
  rw [if_pos hnb, hw]
  simp only [List.foldl_cons, List.foldl_nil]
  unfold stepSub
  rw [if_pos hy]

/-- Witness for C7 at the line "Hello world" from cursor 30. -/
theorem short_tabfree_line_single_subline_witness :
    ('\t' ∉ "Hello world".toList ∧ pyStrip "Hello world" ≠ "" ∧
        "Hello world".length < 70 ∧ ((30, []) : Nat × List DrawCall).1 < height - 30) ∧
      ∃ w, textwrapWrap 70 "Hello world" = [w] ∧
        stepLine (fun _ => 0) Font.load_default ((30, []) : Nat × List DrawCall)
            "Hello world" =
          (30 + line_height,
           [] ++ [⟨30 + (0 : Int) % 5, 30, w, text_color, Font.load_default⟩]) :=
  ⟨⟨by decide, by decide, by decide, by decide⟩,
   short_tabfree_line_single_subline (fun _ => 0) Font.load_default "Hello world"
     (30, []) (by decide) (by decide) (by decide) (by decide)⟩

end Vortex
